import Mathlib

/-!
Verification of the layer-tree compositing engine of mcp-psd2x (src/main.cpp,
class McpServer): `computeBoundingRect`, `applyMasks`, `compositeChildren` and
the render entry point `get_layer_image`.

The embedding is a direct translation of the C++:

* `QRect`, `QPoint` follow Qt's integer rectangle representation
  (`x1,y1,x2,y2` with `x2 = x + width - 1`), including the exact
  `QRect::operator|` (united) algorithm and its `isNull`/`isEmpty` tests.
* A `QImage` is a pixel grid `Nat → Nat → Rgba` with a width, a height and a
  `hasAlpha` flag; `convertToFormat(Format_ARGB32)` keeps the colour channels
  and makes a previously alpha-less image fully opaque, which is exactly what
  Qt does for the 8-bit-per-channel formats produced by the PSD model.
  A null `QImage` is one with a zero dimension.
* A painter is modelled by the trace of its `drawImage` calls: each call is
  recorded as a `DrawOp` carrying the target position, the drawn image, the
  composition mode set just before the call and the painter opacity set just
  before the call.  Two equal traces rasterize to pixel-identical canvases
  under Qt's (deterministic) raster engine, so pixel-identity claims are
  stated as trace equalities.  The intermediate buffer of an isolated group
  becomes an `Img.canvas` node holding the inner trace.
* Layer items (`QPsdAbstractLayerItem`) are `Leaf`/`FolderData` records
  carrying exactly the attributes the engine reads: visibility, rect,
  opacity, fill opacity, blend mode (`record().blendMode()`), image, masks.
  The C++ also skips a child whose `layerItem` pointer is null; the model
  has no null items, which only removes trivially-skipped children.
  Opacities (qreal) are modelled as rationals.
-/

set_option autoImplicit false

namespace Psd2x

/-- A document-space point, as Qt's integer `QPoint`. -/
structure QPoint where
  x : Int
  y : Int
deriving DecidableEq, Repr

instance : Sub QPoint := ⟨fun p q => ⟨p.x - q.x, p.y - q.y⟩⟩

/-- Qt's `QRect` in its internal representation: corners `(x1,y1)` and
`(x2,y2)` with `x2 = x + width - 1`, `y2 = y + height - 1`. -/
structure QRect where
  x1 : Int
  y1 : Int
  x2 : Int
  y2 : Int
deriving DecidableEq, Repr

namespace QRect

/-- `QRect(x, y, w, h)` constructor. -/
def mk4 (x y w h : Int) : QRect := ⟨x, y, x + w - 1, y + h - 1⟩

/-- The default-constructed (null) rectangle `QRect()`. -/
def nullRect : QRect := ⟨0, 0, -1, -1⟩

/-- `QRect::isNull`: both width and height are zero. -/
def isNull (r : QRect) : Bool := r.x2 == r.x1 - 1 && r.y2 == r.y1 - 1

/-- `QRect::isEmpty`: width or height is not positive. -/
def isEmpty (r : QRect) : Bool := r.x1 > r.x2 || r.y1 > r.y2

/-- `QRect::x()`. -/
def x (r : QRect) : Int := r.x1

/-- `QRect::y()`. -/
def y (r : QRect) : Int := r.y1

/-- `QRect::width()`. -/
def width (r : QRect) : Int := r.x2 - r.x1 + 1

/-- `QRect::height()`. -/
def height (r : QRect) : Int := r.y2 - r.y1 + 1

/-- `QRect::topLeft()`. -/
def topLeft (r : QRect) : QPoint := ⟨r.x1, r.y1⟩

/-- `QRect::united` (`operator|`), translated from Qt's qrect.cpp: null
rectangles are identity elements, and an empty (but non-null) span
contributes the degenerate interval `[x1, x1-1]`. -/
def united (a b : QRect) : QRect :=
  if a.isNull then b
  else if b.isNull then a
  else
    let r1 : Int := if a.x2 ≥ a.x1 then a.x2 else a.x1 - 1
    let r2 : Int := if b.x2 ≥ b.x1 then b.x2 else b.x1 - 1
    let b1 : Int := if a.y2 ≥ a.y1 then a.y2 else a.y1 - 1
    let b2 : Int := if b.y2 ≥ b.y1 then b.y2 else b.y1 - 1
    ⟨min a.x1 b.x1, min a.y1 b.y1, max r1 r2, max b1 b2⟩

/-- Specification-side notion: `R` encloses `r` (contains it coordinatewise). -/
def encloses (R r : QRect) : Prop :=
  R.x1 ≤ r.x1 ∧ R.y1 ≤ r.y1 ∧ r.x2 ≤ R.x2 ∧ r.y2 ≤ R.y2

instance (R r : QRect) : Decidable (encloses R r) := by
  unfold encloses; infer_instance

end QRect

/-- One ARGB pixel; channel values are the 8-bit quantities of a `QRgb`. -/
structure Rgba where
  r : Nat
  g : Nat
  b : Nat
  a : Nat
deriving DecidableEq, Repr

/-- Qt's `qGray(QRgb)`: the luma reduction `(r*11 + g*16 + b*5) / 32`. -/
def qGray (p : Rgba) : Nat := (p.r * 11 + p.g * 16 + p.b * 5) / 32

/-- A `QImage` as the engine reads it: dimensions, whether the format has an
alpha channel, and the pixel grid (`pixel(x, y)` / scanlines). -/
structure QImage where
  width : Nat
  height : Nat
  hasAlpha : Bool
  pix : Nat → Nat → Rgba

namespace QImage

/-- `QImage::isNull`: no pixel data (a zero dimension). -/
def isNull (img : QImage) : Bool := img.width == 0 || img.height == 0

/-- `convertToFormat(QImage::Format_ARGB32)` on the 8-bit formats coming out
of the PSD model: colour channels are kept; an image without an alpha channel
becomes fully opaque.  Idempotent on images that already carry alpha. -/
def convertToARGB32 (img : QImage) : QImage :=
  { img with
    hasAlpha := true
    pix := fun x y =>
      let p := img.pix x y
      if img.hasAlpha then p else ⟨p.r, p.g, p.b, 255⟩ }

end QImage

/-- A single-channel 8-bit mask image read through raw scanline bytes
(`QImage` in `Format_Grayscale8`, as `transparencyMask()` returns it). -/
structure GrayImage where
  width : Nat
  height : Nat
  byte : Nat → Nat → Nat

/-- The PSD blend modes the engine distinguishes (`QPsdBlend::Mode`);
`PassThrough` is the folder sentinel, the others stand for the ordinary
modes forwarded to `QtPsdGui::compositionMode`. -/
inductive BlendMode where
  | PassThrough
  | Normal
  | Multiply
  | Screen
  | Darken
  | Lighten
  | Overlay
deriving DecidableEq, Repr

/-- The kind of a non-folder layer item (`QPsdAbstractLayerItem::Type`
minus `Folder`); the engine never branches on it beyond folder-vs-leaf. -/
inductive LeafKind where
  | Image
  | Shape
  | Text
deriving DecidableEq, Repr

/-- A non-folder layer item with the attributes the engine reads. -/
structure Leaf where
  kind : LeafKind
  visible : Bool
  rect : QRect
  opacity : ℚ
  fillOpacity : ℚ
  blend : BlendMode
  image : QImage
  transparencyMask : Option GrayImage
  layerMask : Option QImage
  layerMaskRect : QRect
  layerMaskDefaultColor : Nat

/-- A folder layer item's own attributes (children are stored in the tree). -/
structure FolderData where
  visible : Bool
  opacity : ℚ
  fillOpacity : ℚ
  blend : BlendMode

mutual

/-- A node of the layer tree, children in document order
(first child = topmost). -/
inductive Node where
  | leaf : Leaf → Node
  | folder : FolderData → NodeList → Node

/-- A list of sibling layers (document order). -/
inductive NodeList where
  | nil : NodeList
  | cons : Node → NodeList → NodeList

end

/-- Concatenation of sibling lists. -/
def NodeList.append : NodeList → NodeList → NodeList
  | .nil, ys => ys
  | .cons x xs, ys => .cons x (NodeList.append xs ys)

instance : Append NodeList := ⟨NodeList.append⟩

/-- `isVisible()` of a child item. -/
def nodeVisible : Node → Bool
  | .leaf l => l.visible
  | .folder f _ => f.visible

/-- The transparency-mask loop of `applyMasks` (src/main.cpp:534-543): on the
already-converted ARGB32 image, every pixel inside the overlap of image and
mask extents gets its alpha replaced by the raw mask byte. -/
def applyTransMask (img : QImage) (tm : GrayImage) : QImage :=
  { img with
    pix := fun x y =>
      if x < min img.width tm.width ∧ y < min img.height tm.height then
        let p := img.pix x y
        ⟨p.r, p.g, p.b, tm.byte x y⟩
      else img.pix x y }

/-- The layer-mask loop of `applyMasks` (src/main.cpp:548-570): for every
pixel of the (converted) image, look the mask up at
`(layerRect.x + x - maskRect.x, layerRect.y + y - maskRect.y)`, defaulting to
`defaultColor` outside the mask buffer, and scale alpha by `value / 255`
with truncating integer division. -/
def applyLayerMask (img lm : QImage) (layerRect maskRect : QRect)
    (defaultColor : Nat) : QImage :=
  { img with
    pix := fun x y =>
      if x < img.width ∧ y < img.height then
        let p := img.pix x y
        let maskX : Int := (layerRect.x + (x : Int)) - maskRect.x
        let maskY : Int := (layerRect.y + (y : Int)) - maskRect.y
        let maskValue : Nat :=
          if 0 ≤ maskX ∧ maskX < (lm.width : Int) ∧
             0 ≤ maskY ∧ maskY < (lm.height : Int) then
            qGray (lm.pix maskX.toNat maskY.toNat)
          else defaultColor
        ⟨p.r, p.g, p.b, p.a * maskValue / 255⟩
      else img.pix x y }

/-- The transparency-mask stage of `applyMasks` (src/main.cpp:533-544): the
mask only applies when present and the image has no built-in alpha channel,
in which case the image is first promoted to ARGB32. -/
def transStage (l : Leaf) : QImage :=
  match l.transparencyMask with
  | some tm =>
      if !l.image.hasAlpha then applyTransMask l.image.convertToARGB32 tm
      else l.image
  | none => l.image

/-- `applyMasks` (src/main.cpp:526-573): null image short-circuits; then the
transparency-mask stage; then, when a raster layer mask is present, promotion
to ARGB32 followed by the layer-mask loop. -/
def applyMasks (l : Leaf) : QImage :=
  if l.image.isNull then l.image
  else
    match l.layerMask with
    | some lm =>
        applyLayerMask (transStage l).convertToARGB32 lm l.rect
          l.layerMaskRect l.layerMaskDefaultColor
    | none => transStage l

mutual

/-- The loop of `computeBoundingRect` (src/main.cpp:508-523), with the
accumulated `bounds` made explicit: children are visited in document order,
invisible ones are skipped, folders recurse starting from a fresh null
rectangle. -/
def boundsLoop : QRect → NodeList → QRect
  | acc, .nil => acc
  | acc, .cons n rest => boundsLoop (boundsStep acc n) rest

/-- One iteration of the `computeBoundingRect` loop. -/
def boundsStep : QRect → Node → QRect
  | acc, .leaf l => if l.visible then acc.united l.rect else acc
  | acc, .folder f cs =>
      if f.visible then acc.united (boundsLoop QRect.nullRect cs) else acc

end

/-- `computeBoundingRect` of a parent, applied to its child list. -/
def computeBoundingRect (cs : NodeList) : QRect := boundsLoop QRect.nullRect cs

mutual

/-- An image value as it reaches a `drawImage` call: either a concrete pixel
buffer (`applyMasks` output, or the raw `image()` of a leaf), or the
transparent-filled intermediate canvas of an isolated group, identified by
its size and the trace of draw calls rasterized into it. -/
inductive Img where
  | base : QImage → Img
  | canvas : Int → Int → Ops → Img

/-- The chronological trace of `QPainter::drawImage` calls on one canvas. -/
inductive Ops where
  | nil : Ops
  | cons : DrawOp → Ops → Ops

/-- One recorded `drawImage` call: target position, drawn image, the
composition mode and the painter opacity in effect for the call. -/
inductive DrawOp where
  | mk : QPoint → Img → BlendMode → ℚ → DrawOp

end

/-- Trace concatenation. -/
def Ops.append : Ops → Ops → Ops
  | .nil, ys => ys
  | .cons x xs, ys => .cons x (Ops.append xs ys)

instance : Append Ops := ⟨Ops.append⟩

/-- A single-element trace. -/
def opsOne (op : DrawOp) : Ops := .cons op .nil

mutual

/-- The body of the `compositeChildren` loop (src/main.cpp:583-629) for one
child: invisible children contribute nothing; a pass-through folder recurses
onto the same painter with the same origin (flag `true`); an isolated folder
with non-empty bounds composites its children into a fresh transparent canvas
(fresh painter, opacity 1, flag `false`) and draws it once with the folder's
blend mode and `opacity() * item->opacity() * item->fillOpacity()`; a leaf
draws its masked image unless that is null. -/
def compositeNode : Node → QPoint → ℚ → Ops
  | .leaf l, origin, accOp =>
      if l.visible then
        let layerImage := applyMasks l
        if layerImage.isNull then .nil
        else
          opsOne ⟨l.rect.topLeft - origin, .base layerImage, l.blend,
                  accOp * l.opacity * l.fillOpacity⟩
      else .nil
  | .folder f cs, origin, accOp =>
      if f.visible then
        if f.blend = BlendMode.PassThrough then
          compositeChildren cs origin accOp true
        else
          let childBounds := computeBoundingRect cs
          if childBounds.isEmpty then .nil
          else
            opsOne ⟨childBounds.topLeft - origin,
                    .canvas childBounds.width childBounds.height
                      (compositeChildren cs childBounds.topLeft 1 false),
                    f.blend, accOp * f.opacity * f.fillOpacity⟩
      else .nil

/-- `compositeChildren(parent, painter, origin, passThrough)`
(src/main.cpp:578-630) as the trace of draw calls it performs: the C++ loop
runs `row = count-1` down to `0`, i.e. it handles the reversed child list, so
the trace of the tail (the lower siblings) precedes the head's own draws.
The `passThrough` parameter is carried exactly as in the source, which never
reads it inside the function body. -/
def compositeChildren : NodeList → QPoint → ℚ → Bool → Ops
  | .nil, _, _, _ => .nil
  | .cons n rest, origin, accOp, passThru =>
      compositeChildren rest origin accOp passThru ++ compositeNode n origin accOp

end

/-- `get_layer_image` (src/main.cpp:281-309), applied to the resolved layer
item: a non-folder item returns its raw `image()`; a folder with empty
bounds returns the null image (`none` here); otherwise a transparent canvas
sized to the bounds is composited by `compositeChildren` with origin
`bounds.topLeft()`, a fresh painter (opacity 1) and `passThrough` telling
whether the folder's own blend mode is `PassThrough`. -/
def get_layer_image : Node → Option Img
  | .leaf l => some (.base l.image)
  | .folder f cs =>
      let bounds := computeBoundingRect cs
      if bounds.isEmpty then none
      else
        some (.canvas bounds.width bounds.height
          (compositeChildren cs bounds.topLeft 1
            (decide (f.blend = BlendMode.PassThrough))))

/-- Specification-side notion (spec §4.1): the rects of the visible
descendant leaves reached by the traversal, which skips the entire subtree
of an invisible folder. -/
def visLeafRects : NodeList → List QRect
  | .nil => []
  | .cons (.leaf l) rest =>
      (if l.visible then [l.rect] else []) ++ visLeafRects rest
  | .cons (.folder f cs) rest =>
      (if f.visible then visLeafRects cs else []) ++ visLeafRects rest

/-- Specification-side notion (spec §8.1): some descendant node carries
`visible = true`. -/
def hasVisibleDescendant : NodeList → Bool
  | .nil => false
  | .cons (.leaf l) rest => l.visible || hasVisibleDescendant rest
  | .cons (.folder f cs) rest =>
      f.visible || hasVisibleDescendant cs || hasVisibleDescendant rest

/-! ### Helper lemmas: trace concatenation -/

theorem Ops.nil_append (ys : Ops) : Ops.nil ++ ys = ys := rfl

theorem Ops.cons_append (x : DrawOp) (xs ys : Ops) :
    Ops.cons x xs ++ ys = Ops.cons x (xs ++ ys) := rfl

theorem Ops.append_nil : ∀ os : Ops, os ++ Ops.nil = os
  | .nil => rfl
  | .cons x xs => by
      rw [Ops.cons_append, Ops.append_nil xs]

theorem Ops.append_assoc : ∀ xs ys zs : Ops, xs ++ ys ++ zs = xs ++ (ys ++ zs)
  | .nil, _, _ => rfl
  | .cons x xs, ys, zs => by
      rw [Ops.cons_append, Ops.cons_append, Ops.cons_append,
        Ops.append_assoc xs ys zs]

theorem NodeList.nil_append_eq (ys : NodeList) : NodeList.nil ++ ys = ys := rfl

theorem NodeList.cons_append_eq (x : Node) (xs ys : NodeList) :
    NodeList.cons x xs ++ ys = NodeList.cons x (xs ++ ys) := rfl

/-! ### Helper lemmas: the compositing trace -/

theorem compositeChildren_nil (o : QPoint) (a : ℚ) (pt : Bool) :
    compositeChildren .nil o a pt = .nil := rfl

theorem compositeChildren_cons (n : Node) (rest : NodeList) (o : QPoint)
    (a : ℚ) (pt : Bool) :
    compositeChildren (.cons n rest) o a pt =
      compositeChildren rest o a pt ++ compositeNode n o a := rfl

/-- The `passThrough` parameter is dead: the body of `compositeChildren`
never reads it. -/
theorem compositeChildren_flag :
    ∀ (cs : NodeList) (o : QPoint) (a : ℚ) (b1 b2 : Bool),
      compositeChildren cs o a b1 = compositeChildren cs o a b2
  | .nil, _, _, _, _ => rfl
  | .cons n rest, o, a, b1, b2 => by
      rw [compositeChildren_cons, compositeChildren_cons,
        compositeChildren_flag rest o a b1 b2]

/-- Trace of a concatenated sibling list: the second block paints first. -/
theorem compositeChildren_append :
    ∀ (xs ys : NodeList) (o : QPoint) (a : ℚ) (pt : Bool),
      compositeChildren (xs ++ ys) o a pt =
        compositeChildren ys o a pt ++ compositeChildren xs o a pt
  | .nil, ys, o, a, pt => by
      rw [NodeList.nil_append_eq, compositeChildren_nil, Ops.append_nil]
  | .cons n xs, ys, o, a, pt => by
      rw [NodeList.cons_append_eq, compositeChildren_cons,
        compositeChildren_append xs ys o a pt, compositeChildren_cons,
        Ops.append_assoc]

/-- An invisible child contributes no draw call. -/
theorem compositeNode_invisible (n : Node) (o : QPoint) (a : ℚ)
    (h : nodeVisible n = false) : compositeNode n o a = .nil := by
  cases n with
  | leaf l => simp only [nodeVisible] at h; simp [compositeNode, h]
  | folder f cs => simp only [nodeVisible] at h; simp [compositeNode, h]

/-- A child whose contribution is empty can be spliced out of the list. -/
theorem compositeChildren_splice (pre post : NodeList) (n : Node)
    (o : QPoint) (a : ℚ) (pt : Bool) (h : compositeNode n o a = .nil) :
    compositeChildren (pre ++ .cons n post) o a pt =
      compositeChildren (pre ++ post) o a pt := by
  rw [compositeChildren_append, compositeChildren_append,
    compositeChildren_cons, h, Ops.append_nil]

/-! ### Helper lemmas: `QRect` arithmetic -/

namespace QRect

theorem isEmpty_false_iff (r : QRect) :
    r.isEmpty = false ↔ r.x1 ≤ r.x2 ∧ r.y1 ≤ r.y2 := by
  simp only [isEmpty, Bool.or_eq_false_iff, decide_eq_false_iff_not, not_lt]

theorem isNull_of_nonempty {r : QRect} (h : r.isEmpty = false) :
    r.isNull = false := by
  rw [isEmpty_false_iff] at h
  simp only [isNull, Bool.and_eq_false_iff, beq_eq_false_iff_ne, ne_eq]
  omega

theorem nullRect_isNull : nullRect.isNull = true := rfl

theorem nullRect_united (b : QRect) : nullRect.united b = b := rfl

/-- The union of two non-empty rectangles is the coordinatewise min/max box. -/
theorem united_of_nonempty {a b : QRect} (ha : a.isEmpty = false)
    (hb : b.isEmpty = false) :
    a.united b = ⟨min a.x1 b.x1, min a.y1 b.y1, max a.x2 b.x2, max a.y2 b.y2⟩ := by
  have ha2 := (isEmpty_false_iff a).mp ha
  have hb2 := (isEmpty_false_iff b).mp hb
  rw [united, isNull_of_nonempty ha, isNull_of_nonempty hb]
  simp only [Bool.false_eq_true, if_false, ge_iff_le,
    if_pos ha2.1, if_pos hb2.1, if_pos ha2.2, if_pos hb2.2]

/-- The accumulator states reachable in the `computeBoundingRect` loop:
either the untouched null rectangle or a non-empty union. -/
def okAcc (a : QRect) : Prop := a = nullRect ∨ a.isEmpty = false

theorem okAcc_null : okAcc nullRect := Or.inl rfl

theorem united_nullRect {a : QRect} (ha : okAcc a) : a.united nullRect = a := by
  rcases ha with h | h
  · subst h; rfl
  · rw [united, isNull_of_nonempty h]
    simp [nullRect_isNull]

theorem united_nonempty {a b : QRect} (ha : okAcc a) (hb : b.isEmpty = false) :
    (a.united b).isEmpty = false := by
  rcases ha with h | h
  · subst h; rw [nullRect_united]; exact hb
  · rw [united_of_nonempty h hb, isEmpty_false_iff] at *
    constructor <;> simp only [min_le_iff, le_max_iff] <;> omega

theorem okAcc_united {a b : QRect} (ha : okAcc a) (hb : b.isEmpty = false) :
    okAcc (a.united b) := Or.inr (united_nonempty ha hb)

theorem united_assoc {a b c : QRect} (ha : okAcc a) (hb : b.isEmpty = false)
    (hc : c.isEmpty = false) : a.united (b.united c) = (a.united b).united c := by
  rcases ha with h | h
  · subst h; rw [nullRect_united, nullRect_united]
  · have hbc : (b.united c).isEmpty = false := united_nonempty (Or.inr hb) hc
    have hab : (a.united b).isEmpty = false := united_nonempty (Or.inr h) hb
    rw [united_of_nonempty h hbc, united_of_nonempty hab hc,
      united_of_nonempty hb hc, united_of_nonempty h hb]
    simp [min_assoc, max_assoc]

theorem encloses_of_eq {R r : QRect} (h : R = r) : R.encloses r := by
  subst h; unfold encloses; omega

theorem encloses_trans {R S r : QRect} (h1 : R.encloses S) (h2 : S.encloses r) :
    R.encloses r := by
  unfold encloses at *; omega

theorem united_encloses_left {a b : QRect} (ha : a.isEmpty = false)
    (hb : b.isEmpty = false) : (a.united b).encloses a := by
  rw [united_of_nonempty ha hb]; unfold encloses; dsimp only; omega

theorem united_encloses_right {a b : QRect} (ha : a.isEmpty = false)
    (hb : b.isEmpty = false) : (a.united b).encloses b := by
  rw [united_of_nonempty ha hb]; unfold encloses; dsimp only; omega

theorem encloses_united {R a b : QRect} (ha : a.isEmpty = false)
    (hb : b.isEmpty = false) (h1 : R.encloses a) (h2 : R.encloses b) :
    R.encloses (a.united b) := by
  rw [united_of_nonempty ha hb]; unfold encloses at *; dsimp only; omega

end QRect

/-! ### Helper lemmas: folds of rectangle unions -/

theorem foldl_united_nonempty :
    ∀ (rs : List QRect) (b : QRect), b.isEmpty = false →
      (∀ r ∈ rs, r.isEmpty = false) →
      (rs.foldl QRect.united b).isEmpty = false
  | [], b, hb, _ => hb
  | r :: rs, b, hb, h => by
      rw [List.foldl_cons]
      exact foldl_united_nonempty rs (b.united r)
        (QRect.united_nonempty (Or.inr hb) (h r (by simp)))
        (fun s hs => h s (by simp [hs]))

theorem foldl_united_ok :
    ∀ (rs : List QRect) (a : QRect), QRect.okAcc a →
      (∀ r ∈ rs, r.isEmpty = false) → QRect.okAcc (rs.foldl QRect.united a)
  | [], a, ha, _ => ha
  | r :: rs, a, ha, h => by
      rw [List.foldl_cons]
      exact foldl_united_ok rs (a.united r)
        (QRect.okAcc_united ha (h r (by simp)))
        (fun s hs => h s (by simp [hs]))

theorem foldl_united_merge :
    ∀ (rs : List QRect) (b a : QRect), QRect.okAcc a → b.isEmpty = false →
      (∀ r ∈ rs, r.isEmpty = false) →
      a.united (rs.foldl QRect.united b) = rs.foldl QRect.united (a.united b)
  | [], _, _, _, _, _ => rfl
  | r :: rs, b, a, ha, hb, h => by
      rw [List.foldl_cons, List.foldl_cons,
        foldl_united_merge rs (b.united r) a ha
          (QRect.united_nonempty (Or.inr hb) (h r (by simp)))
          (fun s hs => h s (by simp [hs])),
        QRect.united_assoc ha hb (h r (by simp))]

theorem foldl_united_from_null (rs : List QRect) (a : QRect)
    (ha : QRect.okAcc a) (h : ∀ r ∈ rs, r.isEmpty = false) :
    a.united (rs.foldl QRect.united QRect.nullRect) = rs.foldl QRect.united a := by
  cases rs with
  | nil => exact QRect.united_nullRect ha
  | cons r rs =>
      rw [List.foldl_cons, List.foldl_cons, QRect.nullRect_united,
        foldl_united_merge rs r a ha (h r (by simp)) (fun s hs => h s (by simp [hs]))]

theorem foldl_united_encloses_base :
    ∀ (rs : List QRect) (b : QRect), b.isEmpty = false →
      (∀ r ∈ rs, r.isEmpty = false) →
      (rs.foldl QRect.united b).encloses b
  | [], b, _, _ => QRect.encloses_of_eq rfl
  | r :: rs, b, hb, h => by
      rw [List.foldl_cons]
      have hr := h r (by simp)
      exact QRect.encloses_trans
        (foldl_united_encloses_base rs (b.united r)
          (QRect.united_nonempty (Or.inr hb) hr) (fun s hs => h s (by simp [hs])))
        (QRect.united_encloses_left hb hr)

theorem foldl_united_encloses_mem :
    ∀ (rs : List QRect) (b r : QRect), b.isEmpty = false →
      (∀ s ∈ rs, s.isEmpty = false) → r ∈ rs →
      (rs.foldl QRect.united b).encloses r
  | [], _, _, _, _, hmem => absurd hmem (by simp)
  | s :: rs, b, r, hb, h, hmem => by
      rw [List.foldl_cons]
      have hs := h s (by simp)
      rcases List.mem_cons.mp hmem with heq | htail
      · subst heq
        exact QRect.encloses_trans
          (foldl_united_encloses_base rs (b.united r)
            (QRect.united_nonempty (Or.inr hb) hs) (fun u hu => h u (by simp [hu])))
          (QRect.united_encloses_right hb hs)
      · exact foldl_united_encloses_mem rs (b.united s) r
          (QRect.united_nonempty (Or.inr hb) hs)
          (fun u hu => h u (by simp [hu])) htail

theorem foldl_united_minimal :
    ∀ (rs : List QRect) (b R : QRect), b.isEmpty = false →
      (∀ r ∈ rs, r.isEmpty = false) → R.encloses b →
      (∀ r ∈ rs, R.encloses r) → R.encloses (rs.foldl QRect.united b)
  | [], _, _, _, _, hRb, _ => hRb
  | r :: rs, b, R, hb, h, hRb, hR => by
      rw [List.foldl_cons]
      have hr := h r (by simp)
      exact foldl_united_minimal rs (b.united r) R
        (QRect.united_nonempty (Or.inr hb) hr)
        (fun s hs => h s (by simp [hs]))
        (QRect.encloses_united hb hr hRb (hR r (by simp)))
        (fun s hs => hR s (by simp [hs]))

/-! ### Helper lemmas: `computeBoundingRect` as a fold over visible leaf rects -/

theorem boundsLoop_nil (acc : QRect) : boundsLoop acc .nil = acc := rfl

theorem boundsLoop_cons (acc : QRect) (n : Node) (rest : NodeList) :
    boundsLoop acc (.cons n rest) = boundsLoop (boundsStep acc n) rest := rfl

/-- On a tree whose reachable visible leaves all have non-empty rects, the
`computeBoundingRect` loop is the plain fold of `QRect::united` over those
rects. -/
theorem boundsLoop_eq_foldl :
    ∀ (cs : NodeList) (acc : QRect), QRect.okAcc acc →
      (∀ r ∈ visLeafRects cs, r.isEmpty = false) →
      boundsLoop acc cs = (visLeafRects cs).foldl QRect.united acc
  | .nil, _, _, _ => rfl
  | .cons (.leaf l) rest, acc, ha, h => by
      rw [boundsLoop_cons]
      by_cases hv : l.visible = true
      · have hr : l.rect.isEmpty = false := h l.rect (by simp [visLeafRects, hv])
        have hstep : boundsStep acc (.leaf l) = acc.united l.rect := by
          simp [boundsStep, hv]
        rw [hstep, boundsLoop_eq_foldl rest (acc.united l.rect)
          (QRect.okAcc_united ha hr)
          (fun r hrr => h r (by simp [visLeafRects, hv, hrr]))]
        simp [visLeafRects, hv]
      · have hv2 : l.visible = false := by simpa using hv
        have hstep : boundsStep acc (.leaf l) = acc := by simp [boundsStep, hv2]
        rw [hstep, boundsLoop_eq_foldl rest acc ha
          (fun r hrr => h r (by simp [visLeafRects, hv2, hrr]))]
        simp [visLeafRects, hv2]
  | .cons (.folder f cs0) rest, acc, ha, h => by
      rw [boundsLoop_cons]
      by_cases hv : f.visible = true
      · have hin : ∀ r ∈ visLeafRects cs0, r.isEmpty = false :=
          fun r hrr => h r (by simp [visLeafRects, hv, List.mem_append, hrr])
        have hstep : boundsStep acc (.folder f cs0) =
            acc.united (boundsLoop QRect.nullRect cs0) := by simp [boundsStep, hv]
        rw [hstep, boundsLoop_eq_foldl cs0 QRect.nullRect QRect.okAcc_null hin,
          foldl_united_from_null _ acc ha hin,
          boundsLoop_eq_foldl rest ((visLeafRects cs0).foldl QRect.united acc)
            (foldl_united_ok _ acc ha hin)
            (fun r hrr => h r (by simp [visLeafRects, hv, List.mem_append, hrr]))]
        simp [visLeafRects, hv, List.foldl_append]
      · have hv2 : f.visible = false := by simpa using hv
        have hstep : boundsStep acc (.folder f cs0) = acc := by
          simp [boundsStep, hv2]
        rw [hstep, boundsLoop_eq_foldl rest acc ha
          (fun r hrr => h r (by simp [visLeafRects, hv2, hrr]))]
        simp [visLeafRects, hv2]

theorem foldl_united_null_nonempty (rs : List QRect) (hne : rs ≠ [])
    (h : ∀ r ∈ rs, r.isEmpty = false) :
    (rs.foldl QRect.united QRect.nullRect).isEmpty = false := by
  cases rs with
  | nil => exact absurd rfl hne
  | cons r rs =>
      rw [List.foldl_cons, QRect.nullRect_united]
      exact foldl_united_nonempty rs r (h r (by simp)) (fun s hs => h s (by simp [hs]))

theorem foldl_united_null_encloses (rs : List QRect) (r : QRect)
    (h : ∀ s ∈ rs, s.isEmpty = false) (hmem : r ∈ rs) :
    (rs.foldl QRect.united QRect.nullRect).encloses r := by
  cases rs with
  | nil => exact absurd hmem (by simp)
  | cons s rs =>
      rw [List.foldl_cons, QRect.nullRect_united]
      have hs := h s (by simp)
      rcases List.mem_cons.mp hmem with heq | htail
      · subst heq
        exact foldl_united_encloses_base rs r hs (fun u hu => h u (by simp [hu]))
      · exact foldl_united_encloses_mem rs s r hs
          (fun u hu => h u (by simp [hu])) htail

theorem foldl_united_null_minimal (rs : List QRect) (R : QRect)
    (h : ∀ r ∈ rs, r.isEmpty = false) (hR : ∀ r ∈ rs, R.encloses r)
    (hne : rs ≠ []) : R.encloses (rs.foldl QRect.united QRect.nullRect) := by
  cases rs with
  | nil => exact absurd rfl hne
  | cons r rs =>
      rw [List.foldl_cons, QRect.nullRect_united]
      exact foldl_united_minimal rs r R (h r (by simp))
        (fun s hs => h s (by simp [hs])) (hR r (by simp))
        (fun s hs => hR s (by simp [hs]))

/-- An invisible folder is skipped with its whole subtree by the
`computeBoundingRect` loop. -/
theorem boundsLoop_elide :
    ∀ (pre : NodeList) (acc : QRect) (f : FolderData) (cs0 post : NodeList),
      f.visible = false →
      boundsLoop acc (pre ++ .cons (.folder f cs0) post) =
        boundsLoop acc (pre ++ post)
  | .nil, acc, f, cs0, post, hv => by
      rw [NodeList.nil_append_eq, NodeList.nil_append_eq, boundsLoop_cons]
      have hstep : boundsStep acc (.folder f cs0) = acc := by simp [boundsStep, hv]
      rw [hstep]
  | .cons n pre, acc, f, cs0, post, hv => by
      rw [NodeList.cons_append_eq, NodeList.cons_append_eq, boundsLoop_cons,
        boundsLoop_cons, boundsLoop_elide pre (boundsStep acc n) f cs0 post hv]

/-! ### Concrete example data used by witnesses and counterexamples -/

/-- A 2x2 alpha-less buffer of one constant colour. -/
def exImage : QImage := ⟨2, 2, false, fun _ _ => ⟨10, 20, 30, 255⟩⟩

/-- A plain visible image leaf without masks. -/
def exLeaf : Leaf :=
  { kind := .Image, visible := true, rect := QRect.mk4 0 0 2 2
    opacity := 1, fillOpacity := 1, blend := .Normal, image := exImage
    transparencyMask := none, layerMask := none
    layerMaskRect := QRect.nullRect, layerMaskDefaultColor := 255 }

/-- A second plain leaf at a different position. -/
def exLeafB : Leaf := { exLeaf with rect := QRect.mk4 4 0 2 2 }

/-- A third plain leaf at a different position. -/
def exLeafC : Leaf := { exLeaf with rect := QRect.mk4 0 4 2 2 }

/-- An invisible copy of `exLeaf`. -/
def exHiddenLeaf : Leaf := { exLeaf with visible := false }

/-- A visible pass-through folder record. -/
def exFolderPT : FolderData := ⟨true, 1, 1, .PassThrough⟩

/-- A visible isolated (Normal-blend) folder record. -/
def exFolderIso : FolderData := ⟨true, 1, 1, .Normal⟩

/-- The null image (`QImage()`): no pixel data. -/
def nullImage : QImage := ⟨0, 0, false, fun _ _ => ⟨0, 0, 0, 0⟩⟩

/-- A visible leaf whose pixel buffer is missing. -/
def exNoImageLeaf : Leaf := { exLeaf with image := nullImage }

/-- A 1x1 all-black raster mask image. -/
def exBlackMask : QImage := ⟨1, 1, true, fun _ _ => ⟨0, 0, 0, 255⟩⟩

/-- A leaf with an all-black raster layer mask aligned with its 1x1 rect:
`applyMasks` forces its alpha to 0, while its raw `image()` is opaque. -/
def exMaskedLeaf : Leaf :=
  { kind := .Image, visible := true, rect := QRect.mk4 0 0 1 1
    opacity := 1, fillOpacity := 1, blend := .Normal
    image := ⟨1, 1, false, fun _ _ => ⟨10, 20, 30, 255⟩⟩
    transparencyMask := none
    layerMask := some exBlackMask
    layerMaskRect := QRect.mk4 0 0 1 1, layerMaskDefaultColor := 0 }

/-- A visible leaf whose rect is the zero-size `QRect(0,0,0,0)`. -/
def exZeroRectLeaf : Leaf := { exLeaf with rect := QRect.mk4 0 0 0 0 }

/-- A child list holding only the zero-size visible leaf. -/
def exZeroRectList : NodeList := .cons (.leaf exZeroRectLeaf) .nil

/-- A child list holding one plain visible leaf. -/
def exList1 : NodeList := .cons (.leaf exLeaf) .nil

/-! ### The claims -/

/-- C9: the result of `compositeChildren` is independent of its
`passThrough` argument: two runs that differ only in that boolean perform
the same sequence of draw calls (hence identical canvas contents), because
the flag is never read inside the function body. -/
theorem compositeChildren_flag_independent (cs : NodeList) (o : QPoint) (a : ℚ) :
    compositeChildren cs o a true = compositeChildren cs o a false :=
  compositeChildren_flag cs o a true false

/-- C4: `compositeChildren` paints children in reverse document order — for
siblings `[A, B, C]` (A topmost) the draw-call trace is C's calls, then B's,
then A's, so the topmost sibling is painted last — and a child whose
`visible` flag is false contributes no draw call and can be removed from the
child list without changing the trace. -/
theorem compositeChildren_paint_order :
    (∀ (A B C : Node) (o : QPoint) (a : ℚ) (pt : Bool),
      compositeChildren (.cons A (.cons B (.cons C .nil))) o a pt =
        compositeNode C o a ++ compositeNode B o a ++ compositeNode A o a) ∧
    (∀ (n : Node) (o : QPoint) (a : ℚ), nodeVisible n = false →
      compositeNode n o a = .nil) ∧
    (∀ (pre post : NodeList) (n : Node) (o : QPoint) (a : ℚ) (pt : Bool),
      nodeVisible n = false →
      compositeChildren (pre ++ .cons n post) o a pt =
        compositeChildren (pre ++ post) o a pt) := by
  refine ⟨?_, ?_, ?_⟩
  · intro A B C o a pt
    rw [compositeChildren_cons, compositeChildren_cons, compositeChildren_cons,
      compositeChildren_nil, Ops.nil_append]
  · intro n o a h
    exact compositeNode_invisible n o a h
  · intro pre post n o a pt h
    exact compositeChildren_splice pre post n o a pt
      (compositeNode_invisible n o a h)

/-- C4 witness: concrete three siblings obey the trace equation, and a
concrete invisible leaf contributes nothing and splices out. -/
theorem compositeChildren_paint_order_witness :
    (compositeChildren
        (.cons (.leaf exLeaf) (.cons (.leaf exLeafB) (.cons (.leaf exLeafC) .nil)))
        ⟨0, 0⟩ 1 false =
      compositeNode (.leaf exLeafC) ⟨0, 0⟩ 1 ++
        compositeNode (.leaf exLeafB) ⟨0, 0⟩ 1 ++
        compositeNode (.leaf exLeaf) ⟨0, 0⟩ 1) ∧
    nodeVisible (.leaf exHiddenLeaf) = false ∧
    compositeNode (.leaf exHiddenLeaf) ⟨0, 0⟩ 1 = .nil ∧
    compositeChildren (.cons (.leaf exLeaf) (.cons (.leaf exHiddenLeaf) .nil))
        ⟨0, 0⟩ 1 false =
      compositeChildren (.cons (.leaf exLeaf) .nil) ⟨0, 0⟩ 1 false :=
  ⟨compositeChildren_paint_order.1 (.leaf exLeaf) (.leaf exLeafB) (.leaf exLeafC)
      ⟨0, 0⟩ 1 false,
   rfl,
   compositeChildren_paint_order.2.1 (.leaf exHiddenLeaf) ⟨0, 0⟩ 1 rfl,
   compositeChildren_paint_order.2.2 (.cons (.leaf exLeaf) .nil) .nil
      (.leaf exHiddenLeaf) ⟨0, 0⟩ 1 false rfl⟩

/-- C3: a visible folder whose blend mode is `PassThrough` composites
identically to splicing its children into the parent's child list at its
position: the same draw-call trace results (no intermediate buffer, the
folder's own blend mode, opacity and fillOpacity are never applied, the
children draw against the canvas built up so far). -/
theorem compositeChildren_passthrough_inline (pre post cs : NodeList)
    (f : FolderData) (o : QPoint) (a : ℚ) (pt : Bool)
    (hv : f.visible = true) (hb : f.blend = BlendMode.PassThrough) :
    compositeChildren (pre ++ .cons (.folder f cs) post) o a pt =
      compositeChildren (pre ++ (cs ++ post)) o a pt := by
  have hcn : compositeNode (.folder f cs) o a = compositeChildren cs o a pt := by
    rw [show compositeNode (.folder f cs) o a = compositeChildren cs o a true
      from by simp [compositeNode, hv, hb]]
    exact compositeChildren_flag cs o a true pt
  rw [compositeChildren_append, compositeChildren_append, compositeChildren_cons,
    compositeChildren_append, hcn]

/-- C3 witness: a concrete visible pass-through folder containing one leaf,
between two sibling leaves, traces identically to the inlined list. -/
theorem compositeChildren_passthrough_inline_witness :
    exFolderPT.visible = true ∧ exFolderPT.blend = BlendMode.PassThrough ∧
    compositeChildren
        (.cons (.leaf exLeafB) (.cons (.folder exFolderPT exList1)
          (.cons (.leaf exLeafC) .nil))) ⟨0, 0⟩ 1 false =
      compositeChildren
        (.cons (.leaf exLeafB) (.cons (.leaf exLeaf)
          (.cons (.leaf exLeafC) .nil))) ⟨0, 0⟩ 1 false :=
  ⟨rfl, rfl,
   compositeChildren_passthrough_inline (.cons (.leaf exLeafB) .nil)
     (.cons (.leaf exLeafC) .nil) exList1 exFolderPT ⟨0, 0⟩ 1 false rfl rfl⟩

/-- C2: a visible folder with a non-`PassThrough` blend mode is skipped when
its bounds are empty; otherwise its descendants are composited into a fresh
transparent canvas sized to `computeBoundingRect` of its children (fresh
painter: opacity 1, origin the bound's top-left, flag `false`), and that
finished composite is painted onto the outer canvas exactly once, at
`childBounds.topLeft - origin`, with the folder's blend mode and opacity
`accumulated * opacity * fillOpacity`; the inner draw calls stay inside the
intermediate canvas and never touch the outer trace. -/
theorem compositeChildren_isolated_folder (pre post cs : NodeList)
    (f : FolderData) (o : QPoint) (a : ℚ) (pt : Bool)
    (hv : f.visible = true) (hb : ¬f.blend = BlendMode.PassThrough) :
    ((computeBoundingRect cs).isEmpty = true →
      compositeChildren (pre ++ .cons (.folder f cs) post) o a pt =
        compositeChildren (pre ++ post) o a pt) ∧
    ((computeBoundingRect cs).isEmpty = false →
      compositeChildren (pre ++ .cons (.folder f cs) post) o a pt =
        compositeChildren post o a pt ++
          opsOne ⟨(computeBoundingRect cs).topLeft - o,
            .canvas (computeBoundingRect cs).width (computeBoundingRect cs).height
              (compositeChildren cs (computeBoundingRect cs).topLeft 1 false),
            f.blend, a * f.opacity * f.fillOpacity⟩ ++
          compositeChildren pre o a pt) := by
  constructor
  · intro hempty
    exact compositeChildren_splice pre post (.folder f cs) o a pt
      (by simp [compositeNode, hv, hb, hempty])
  · intro hne
    rw [compositeChildren_append, compositeChildren_cons]
    have hcn : compositeNode (.folder f cs) o a =
        opsOne ⟨(computeBoundingRect cs).topLeft - o,
          .canvas (computeBoundingRect cs).width (computeBoundingRect cs).height
            (compositeChildren cs (computeBoundingRect cs).topLeft 1 false),
          f.blend, a * f.opacity * f.fillOpacity⟩ := by
      simp [compositeNode, hv, hb, hne]
    rw [hcn, Ops.append_assoc]

/-- C2 witness: a concrete visible Normal-blend folder with one leaf child
has non-empty bounds and paints as a single canvas draw between its
siblings' draws. -/
theorem compositeChildren_isolated_folder_witness :
    exFolderIso.visible = true ∧ ¬exFolderIso.blend = BlendMode.PassThrough ∧
    (computeBoundingRect exList1).isEmpty = false ∧
    compositeChildren
        (.cons (.leaf exLeafB) (.cons (.folder exFolderIso exList1)
          (.cons (.leaf exLeafC) .nil))) ⟨0, 0⟩ 1 false =
      compositeChildren (.cons (.leaf exLeafC) .nil) ⟨0, 0⟩ 1 false ++
        opsOne ⟨(computeBoundingRect exList1).topLeft - (⟨0, 0⟩ : QPoint),
          .canvas (computeBoundingRect exList1).width
            (computeBoundingRect exList1).height
            (compositeChildren exList1 (computeBoundingRect exList1).topLeft 1 false),
          exFolderIso.blend, 1 * exFolderIso.opacity * exFolderIso.fillOpacity⟩ ++
        compositeChildren (.cons (.leaf exLeafB) .nil) ⟨0, 0⟩ 1 false :=
  ⟨rfl, by decide, by decide,
   (compositeChildren_isolated_folder (.cons (.leaf exLeafB) .nil)
     (.cons (.leaf exLeafC) .nil) exList1 exFolderIso ⟨0, 0⟩ 1 false
     rfl (by decide)).2 (by decide)⟩

/-- C1 counterexample: for the concrete leaf `exMaskedLeaf`, which carries a
layer mask, `get_layer_image` does not return `applyMasks` of the leaf — the
code's leaf fast path returns the raw `image()` with no masks applied. -/
theorem getLayerImage_leaf_not_applyMasks :
    ¬get_layer_image (.leaf exMaskedLeaf) =
      some (.base (applyMasks exMaskedLeaf)) := by
  intro h
  have h1 : Img.base exMaskedLeaf.image = Img.base (applyMasks exMaskedLeaf) :=
    Option.some.inj h
  have h2 : exMaskedLeaf.image = applyMasks exMaskedLeaf := by
    injection h1
  have h3 := congrArg QImage.hasAlpha h2
  exact absurd h3 (by decide)

/-- C1 amended: for every node whose kind is not Folder, the top-level
render entry point returns the leaf's raw `image()` directly — the
transparency mask and the layer mask are not applied, and no canvas is
allocated. -/
theorem getLayerImage_leaf_raw (l : Leaf) :
    get_layer_image (.leaf l) = some (.base l.image) := rfl

/-- C8: missing pixel data and empty bounds are "nothing rendered", not
errors: a folder whose child bounds are empty renders as the explicit empty
result; a leaf with a null pixel buffer has a null `applyMasks` result,
contributes no draw call, and splices out of the compositing trace, the rest
of the render proceeding unchanged. -/
theorem render_degrades_gracefully :
    (∀ (f : FolderData) (cs : NodeList),
      (computeBoundingRect cs).isEmpty = true →
      get_layer_image (.folder f cs) = none) ∧
    (∀ l : Leaf, l.image.isNull = true → (applyMasks l).isNull = true) ∧
    (∀ (l : Leaf) (o : QPoint) (a : ℚ), l.image.isNull = true →
      compositeNode (.leaf l) o a = .nil) ∧
    (∀ (pre post : NodeList) (l : Leaf) (o : QPoint) (a : ℚ) (pt : Bool),
      l.image.isNull = true →
      compositeChildren (pre ++ .cons (.leaf l) post) o a pt =
        compositeChildren (pre ++ post) o a pt) := by
  have hmask : ∀ l : Leaf, l.image.isNull = true → (applyMasks l).isNull = true := by
    intro l h
    simp [applyMasks, h]
  have hnode : ∀ (l : Leaf) (o : QPoint) (a : ℚ), l.image.isNull = true →
      compositeNode (.leaf l) o a = .nil := by
    intro l o a h
    simp [compositeNode, hmask l h]
  refine ⟨?_, hmask, hnode, ?_⟩
  · intro f cs h
    simp [get_layer_image, h]
  · intro pre post l o a pt h
    exact compositeChildren_splice pre post (.leaf l) o a pt (hnode l o a h)

/-- C8 witness: a folder over the zero-size-leaf list has empty bounds and
renders empty; the concrete image-less leaf is inert in all three senses. -/
theorem render_degrades_gracefully_witness :
    (computeBoundingRect exZeroRectList).isEmpty = true ∧
    get_layer_image (.folder exFolderIso exZeroRectList) = none ∧
    exNoImageLeaf.image.isNull = true ∧
    (applyMasks exNoImageLeaf).isNull = true ∧
    compositeNode (.leaf exNoImageLeaf) ⟨0, 0⟩ 1 = .nil ∧
    compositeChildren (.cons (.leaf exLeaf) (.cons (.leaf exNoImageLeaf) .nil))
        ⟨0, 0⟩ 1 false =
      compositeChildren (.cons (.leaf exLeaf) .nil) ⟨0, 0⟩ 1 false :=
  ⟨by decide,
   render_degrades_gracefully.1 exFolderIso exZeroRectList (by decide),
   by decide,
   render_degrades_gracefully.2.1 exNoImageLeaf (by decide),
   render_degrades_gracefully.2.2.1 exNoImageLeaf ⟨0, 0⟩ 1 (by decide),
   render_degrades_gracefully.2.2.2 (.cons (.leaf exLeaf) .nil) .nil
     exNoImageLeaf ⟨0, 0⟩ 1 false (by decide)⟩

/-! ### Helper lemmas: the mask pipeline touches only alpha -/

theorem convert_pix_rgb (img : QImage) (x y : Nat) :
    ((img.convertToARGB32).pix x y).r = (img.pix x y).r ∧
    ((img.convertToARGB32).pix x y).g = (img.pix x y).g ∧
    ((img.convertToARGB32).pix x y).b = (img.pix x y).b := by
  simp only [QImage.convertToARGB32]
  by_cases h : img.hasAlpha = true <;> simp [h]

theorem applyTransMask_pix_rgb (img : QImage) (tm : GrayImage) (x y : Nat) :
    ((applyTransMask img tm).pix x y).r = (img.pix x y).r ∧
    ((applyTransMask img tm).pix x y).g = (img.pix x y).g ∧
    ((applyTransMask img tm).pix x y).b = (img.pix x y).b := by
  simp only [applyTransMask]
  split <;> simp

theorem applyLayerMask_pix_rgb (img lm : QImage) (lr mr : QRect) (dc : Nat)
    (x y : Nat) :
    ((applyLayerMask img lm lr mr dc).pix x y).r = (img.pix x y).r ∧
    ((applyLayerMask img lm lr mr dc).pix x y).g = (img.pix x y).g ∧
    ((applyLayerMask img lm lr mr dc).pix x y).b = (img.pix x y).b := by
  simp only [applyLayerMask]
  split <;> simp

theorem transStage_pix_rgb (l : Leaf) (x y : Nat) :
    ((transStage l).pix x y).r = (l.image.pix x y).r ∧
    ((transStage l).pix x y).g = (l.image.pix x y).g ∧
    ((transStage l).pix x y).b = (l.image.pix x y).b := by
  unfold transStage
  cases l.transparencyMask with
  | none => exact ⟨rfl, rfl, rfl⟩
  | some tm =>
      by_cases h : l.image.hasAlpha = true
      · simp [h]
      · have h2 : l.image.hasAlpha = false := by simpa using h
        simp only [h2, Bool.not_false, if_pos]
        have ht := applyTransMask_pix_rgb l.image.convertToARGB32 tm x y
        have hc := convert_pix_rgb l.image x y
        exact ⟨ht.1.trans hc.1, ht.2.1.trans hc.2.1, ht.2.2.trans hc.2.2⟩

theorem transStage_width (l : Leaf) : (transStage l).width = l.image.width := by
  unfold transStage
  cases l.transparencyMask with
  | none => rfl
  | some tm =>
      by_cases h : l.image.hasAlpha = true
      · simp [h]
      · have h2 : l.image.hasAlpha = false := by simpa using h
        simp [h2, applyTransMask, QImage.convertToARGB32]

theorem transStage_height (l : Leaf) : (transStage l).height = l.image.height := by
  unfold transStage
  cases l.transparencyMask with
  | none => rfl
  | some tm =>
      by_cases h : l.image.hasAlpha = true
      · simp [h]
      · have h2 : l.image.hasAlpha = false := by simpa using h
        simp [h2, applyTransMask, QImage.convertToARGB32]

/-- C10: `applyMasks` changes only the alpha channel — every pixel of its
result keeps the red, green and blue values of the corresponding pixel of
the source buffer after format promotion (`convertToFormat(ARGB32)`, which
itself keeps the colour channels), whether or not any mask is present. -/
theorem applyMasks_preserves_rgb (l : Leaf) (x y : Nat) :
    ((applyMasks l).pix x y).r = ((l.image.convertToARGB32).pix x y).r ∧
    ((applyMasks l).pix x y).g = ((l.image.convertToARGB32).pix x y).g ∧
    ((applyMasks l).pix x y).b = ((l.image.convertToARGB32).pix x y).b := by
  have hc := convert_pix_rgb l.image x y
  unfold applyMasks
  by_cases hn : l.image.isNull = true
  · simp only [hn, if_pos]
    exact ⟨hc.1.symm, hc.2.1.symm, hc.2.2.symm⟩
  · have hn2 : l.image.isNull = false := by simpa using hn
    simp only [hn2, Bool.false_eq_true, if_false]
    have hs := transStage_pix_rgb l x y
    cases hm : l.layerMask with
    | none =>
        exact ⟨hs.1.trans hc.1.symm, hs.2.1.trans hc.2.1.symm,
          hs.2.2.trans hc.2.2.symm⟩
    | some lm =>
        have ha := applyLayerMask_pix_rgb (transStage l).convertToARGB32 lm
          l.rect l.layerMaskRect l.layerMaskDefaultColor x y
        have hcc := convert_pix_rgb (transStage l) x y
        exact ⟨((ha.1.trans hcc.1).trans hs.1).trans hc.1.symm,
          ((ha.2.1.trans hcc.2.1).trans hs.2.1).trans hc.2.1.symm,
          ((ha.2.2.trans hcc.2.2).trans hs.2.2).trans hc.2.2.symm⟩

/-- The layer-mask loop on an in-range pixel, with the `if` made explicit. -/
theorem applyLayerMask_pix_in (img lm : QImage) (lr mr : QRect) (dc : Nat)
    (x y : Nat) (hx : x < img.width) (hy : y < img.height) :
    (applyLayerMask img lm lr mr dc).pix x y =
      ⟨(img.pix x y).r, (img.pix x y).g, (img.pix x y).b,
       (img.pix x y).a *
         (if 0 ≤ (lr.x + (x : Int)) - mr.x ∧
             (lr.x + (x : Int)) - mr.x < (lm.width : Int) ∧
             0 ≤ (lr.y + (y : Int)) - mr.y ∧
             (lr.y + (y : Int)) - mr.y < (lm.height : Int) then
            qGray (lm.pix ((lr.x + (x : Int)) - mr.x).toNat
              ((lr.y + (y : Int)) - mr.y).toNat)
          else dc) / 255⟩ := by
  simp only [applyLayerMask]
  rw [if_pos ⟨hx, hy⟩]

/-- C7: with a layer mask present, each pixel `(x, y)` of the masked result
keeps the colour of the promoted pre-mask image and gets alpha
`floor(currentAlpha * maskValue / 255)` (truncating integer division),
where the mask value is read at the mask-local coordinates
`(leaf.rect.x + x - maskRect.x, leaf.rect.y + y - maskRect.y)` as the
grayscale intensity of the mask pixel when those coordinates are inside the
mask buffer, and is the mask's `defaultColor` otherwise — never an error. -/
theorem applyMasks_layerMask_pixel (l : Leaf) (lm : QImage)
    (hlm : l.layerMask = some lm) (hnn : l.image.isNull = false)
    (x y : Nat) (hx : x < l.image.width) (hy : y < l.image.height) :
    (applyMasks l).pix x y =
      ⟨(((transStage l).convertToARGB32).pix x y).r,
       (((transStage l).convertToARGB32).pix x y).g,
       (((transStage l).convertToARGB32).pix x y).b,
       (((transStage l).convertToARGB32).pix x y).a *
         (if 0 ≤ (l.rect.x + (x : Int)) - l.layerMaskRect.x ∧
             (l.rect.x + (x : Int)) - l.layerMaskRect.x < (lm.width : Int) ∧
             0 ≤ (l.rect.y + (y : Int)) - l.layerMaskRect.y ∧
             (l.rect.y + (y : Int)) - l.layerMaskRect.y < (lm.height : Int) then
            qGray (lm.pix ((l.rect.x + (x : Int)) - l.layerMaskRect.x).toNat
              ((l.rect.y + (y : Int)) - l.layerMaskRect.y).toNat)
          else l.layerMaskDefaultColor) / 255⟩ := by
  unfold applyMasks
  simp only [hnn, Bool.false_eq_true, if_false, hlm]
  exact applyLayerMask_pix_in (transStage l).convertToARGB32 lm l.rect
    l.layerMaskRect l.layerMaskDefaultColor x y
    (by rw [show ((transStage l).convertToARGB32).width = (transStage l).width
        from rfl, transStage_width]; exact hx)
    (by rw [show ((transStage l).convertToARGB32).height = (transStage l).height
        from rfl, transStage_height]; exact hy)

/-- C7 witness: the concrete masked leaf satisfies the hypotheses at pixel
`(0, 0)`, and the pixel formula holds there. -/
theorem applyMasks_layerMask_pixel_witness :
    exMaskedLeaf.layerMask = some exBlackMask ∧
    exMaskedLeaf.image.isNull = false ∧
    (applyMasks exMaskedLeaf).pix 0 0 =
      ⟨(((transStage exMaskedLeaf).convertToARGB32).pix 0 0).r,
       (((transStage exMaskedLeaf).convertToARGB32).pix 0 0).g,
       (((transStage exMaskedLeaf).convertToARGB32).pix 0 0).b,
       (((transStage exMaskedLeaf).convertToARGB32).pix 0 0).a *
         (if 0 ≤ (exMaskedLeaf.rect.x + (0 : Int)) - exMaskedLeaf.layerMaskRect.x ∧
             (exMaskedLeaf.rect.x + (0 : Int)) - exMaskedLeaf.layerMaskRect.x <
               (exBlackMask.width : Int) ∧
             0 ≤ (exMaskedLeaf.rect.y + (0 : Int)) - exMaskedLeaf.layerMaskRect.y ∧
             (exMaskedLeaf.rect.y + (0 : Int)) - exMaskedLeaf.layerMaskRect.y <
               (exBlackMask.height : Int) then
            qGray (exBlackMask.pix
              ((exMaskedLeaf.rect.x + (0 : Int)) - exMaskedLeaf.layerMaskRect.x).toNat
              ((exMaskedLeaf.rect.y + (0 : Int)) - exMaskedLeaf.layerMaskRect.y).toNat)
          else exMaskedLeaf.layerMaskDefaultColor) / 255⟩ :=
  ⟨rfl, rfl,
   applyMasks_layerMask_pixel exMaskedLeaf exBlackMask rfl rfl 0 0
     (by decide) (by decide)⟩

/-- C6: on a buffer without native alpha, a transparency mask of all 128
followed by a layer mask of all 128 (aligned with the layer rect) composes
multiplicatively in sequence: the transparency mask first sets alpha to 128,
then the layer mask scales it, so every pixel ends with alpha
`128 * 128 / 255 = floor(255 * 128/255 * 128/255) = 64` in truncating
integer arithmetic. -/
theorem applyMasks_mask_multiplicativity (l : Leaf) (tm : GrayImage)
    (lm : QImage)
    (hA : l.image.hasAlpha = false)
    (htm : l.transparencyMask = some tm)
    (htw : tm.width = l.image.width) (hth : tm.height = l.image.height)
    (htb : ∀ x y, tm.byte x y = 128)
    (hlm : l.layerMask = some lm)
    (hlw : lm.width = l.image.width) (hlh : lm.height = l.image.height)
    (hlb : ∀ x y, qGray (lm.pix x y) = 128)
    (hmx : l.layerMaskRect.x = l.rect.x) (hmy : l.layerMaskRect.y = l.rect.y)
    (x y : Nat) (hx : x < l.image.width) (hy : y < l.image.height) :
    ((applyMasks l).pix x y).a = 64 ∧ 255 * 128 / 255 * 128 / 255 = (64 : Nat) := by
  refine ⟨?_, by norm_num⟩
  have hnn : l.image.isNull = false := by
    simp only [QImage.isNull, Bool.or_eq_false_iff, beq_eq_false_iff_ne, ne_eq]
    omega
  have hxc : x < ((transStage l).convertToARGB32).width := by
    rw [show ((transStage l).convertToARGB32).width = (transStage l).width
      from rfl, transStage_width]; exact hx
  have hyc : y < ((transStage l).convertToARGB32).height := by
    rw [show ((transStage l).convertToARGB32).height = (transStage l).height
      from rfl, transStage_height]; exact hy
  unfold applyMasks
  simp only [hnn, Bool.false_eq_true, if_false, hlm]
  rw [applyLayerMask_pix_in (transStage l).convertToARGB32 lm l.rect
    l.layerMaskRect l.layerMaskDefaultColor x y hxc hyc]
  -- the alpha produced by the transparency-mask stage is 128
  have ht : transStage l = applyTransMask l.image.convertToARGB32 tm := by
    simp [transStage, htm, hA]
  have hha : (transStage l).hasAlpha = true := by rw [ht]; rfl
  have hbase : (((transStage l).convertToARGB32).pix x y).a = 128 := by
    have hcv : ((transStage l).convertToARGB32).pix x y = (transStage l).pix x y := by
      simp [QImage.convertToARGB32, hha]
    rw [hcv, ht]
    simp only [applyTransMask]
    rw [if_pos]
    · exact htb x y
    · constructor
      · rw [show (l.image.convertToARGB32).width = l.image.width from rfl, htw,
          min_self]
        exact hx
      · rw [show (l.image.convertToARGB32).height = l.image.height from rfl, hth,
          min_self]
        exact hy
  -- the mask-local coordinates are in range and the mask value is 128
  have hcx : (l.rect.x + (x : Int)) - l.layerMaskRect.x = (x : Int) := by
    rw [hmx]; ring
  have hcy : (l.rect.y + (y : Int)) - l.layerMaskRect.y = (y : Int) := by
    rw [hmy]; ring
  rw [show (⟨(((transStage l).convertToARGB32).pix x y).r,
      (((transStage l).convertToARGB32).pix x y).g,
      (((transStage l).convertToARGB32).pix x y).b,
      (((transStage l).convertToARGB32).pix x y).a *
        (if 0 ≤ (l.rect.x + (x : Int)) - l.layerMaskRect.x ∧
            (l.rect.x + (x : Int)) - l.layerMaskRect.x < (lm.width : Int) ∧
            0 ≤ (l.rect.y + (y : Int)) - l.layerMaskRect.y ∧
            (l.rect.y + (y : Int)) - l.layerMaskRect.y < (lm.height : Int) then
           qGray (lm.pix ((l.rect.x + (x : Int)) - l.layerMaskRect.x).toNat
             ((l.rect.y + (y : Int)) - l.layerMaskRect.y).toNat)
         else l.layerMaskDefaultColor) / 255⟩ : Rgba).a =
      (((transStage l).convertToARGB32).pix x y).a *
        (if 0 ≤ (l.rect.x + (x : Int)) - l.layerMaskRect.x ∧
            (l.rect.x + (x : Int)) - l.layerMaskRect.x < (lm.width : Int) ∧
            0 ≤ (l.rect.y + (y : Int)) - l.layerMaskRect.y ∧
            (l.rect.y + (y : Int)) - l.layerMaskRect.y < (lm.height : Int) then
           qGray (lm.pix ((l.rect.x + (x : Int)) - l.layerMaskRect.x).toNat
             ((l.rect.y + (y : Int)) - l.layerMaskRect.y).toNat)
         else l.layerMaskDefaultColor) / 255 from rfl]
  rw [hbase, hcx, hcy, if_pos]
  · rw [Int.toNat_natCast, Int.toNat_natCast, hlb x y]
  · refine ⟨Int.natCast_nonneg x, ?_, Int.natCast_nonneg y, ?_⟩
    · rw [hlw]; exact_mod_cast hx
    · rw [hlh]; exact_mod_cast hy

/-- A 2x2 all-128 transparency mask. -/
def exGray128Mask : GrayImage := ⟨2, 2, fun _ _ => 128⟩

/-- A 2x2 all-128 grayscale layer mask. -/
def exGrayLayerMask : QImage := ⟨2, 2, true, fun _ _ => ⟨128, 128, 128, 255⟩⟩

/-- A leaf carrying both the all-128 transparency mask and the all-128 layer
mask over its alpha-less 2x2 buffer. -/
def exDoubleMaskedLeaf : Leaf :=
  { kind := .Image, visible := true, rect := QRect.mk4 0 0 2 2
    opacity := 1, fillOpacity := 1, blend := .Normal
    image := exImage
    transparencyMask := some exGray128Mask
    layerMask := some exGrayLayerMask
    layerMaskRect := QRect.mk4 0 0 2 2, layerMaskDefaultColor := 0 }

theorem exGrayLayerMask_qGray : qGray ⟨128, 128, 128, 255⟩ = 128 := rfl

/-- C6 witness: the double-masked concrete leaf satisfies every hypothesis
and its pixel `(0, 0)` ends with alpha 64. -/
theorem applyMasks_mask_multiplicativity_witness :
    exDoubleMaskedLeaf.image.hasAlpha = false ∧
    exDoubleMaskedLeaf.transparencyMask = some exGray128Mask ∧
    exDoubleMaskedLeaf.layerMask = some exGrayLayerMask ∧
    ((applyMasks exDoubleMaskedLeaf).pix 0 0).a = 64 :=
  ⟨rfl, rfl, rfl,
   (applyMasks_mask_multiplicativity exDoubleMaskedLeaf exGray128Mask
     exGrayLayerMask rfl rfl rfl rfl (fun _ _ => rfl) rfl rfl rfl
     (fun _ _ => exGrayLayerMask_qGray) rfl rfl 0 0
     (by decide) (by decide)).1⟩

/-- C5 counterexample: a single visible leaf whose rect is the zero-size
`QRect(0,0,0,0)` gives an empty `computeBoundingRect` although a descendant
is visible, so the claimed equivalence "empty iff no descendant is visible"
fails as stated. -/
theorem computeBoundingRect_empty_iff_cex :
    (computeBoundingRect exZeroRectList).isEmpty = true ∧
    hasVisibleDescendant exZeroRectList = true := by
  constructor <;> decide

/-- C5 amended: restricted to trees whose reachable visible leaves all have
non-empty rects, `computeBoundingRect` is empty iff the traversal (which
never enters an invisible node) reaches no visible leaf; otherwise it is
the smallest rectangle enclosing every reachable visible leaf's rect; and
an invisible folder, together with its entire subtree, contributes
nothing. -/
theorem computeBoundingRect_spec (cs : NodeList)
    (h : ∀ r ∈ visLeafRects cs, r.isEmpty = false) :
    ((computeBoundingRect cs).isEmpty = true ↔ visLeafRects cs = []) ∧
    (∀ r ∈ visLeafRects cs, (computeBoundingRect cs).encloses r) ∧
    (∀ R : QRect, (∀ r ∈ visLeafRects cs, R.encloses r) →
      visLeafRects cs ≠ [] → R.encloses (computeBoundingRect cs)) ∧
    (∀ (pre : NodeList) (f : FolderData) (cs0 post : NodeList),
      f.visible = false →
      computeBoundingRect (pre ++ .cons (.folder f cs0) post) =
        computeBoundingRect (pre ++ post)) := by
  have hfold : computeBoundingRect cs =
      (visLeafRects cs).foldl QRect.united QRect.nullRect :=
    boundsLoop_eq_foldl cs QRect.nullRect QRect.okAcc_null h
  refine ⟨?_, ?_, ?_, ?_⟩
  · rw [hfold]
    constructor
    · intro hempty
      by_contra hne
      rw [foldl_united_null_nonempty (visLeafRects cs) hne h] at hempty
      exact Bool.false_ne_true hempty
    · intro hnil
      rw [hnil]
      rfl
  · intro r hmem
    rw [hfold]
    exact foldl_united_null_encloses (visLeafRects cs) r h hmem
  · intro R hR hne
    rw [hfold]
    exact foldl_united_null_minimal (visLeafRects cs) R h hR hne
  · intro pre f cs0 post hv
    exact boundsLoop_elide pre QRect.nullRect f cs0 post hv

/-- C5 witness: on the one-leaf concrete list every reachable visible leaf
rect is non-empty, and there the bound is non-empty and encloses the leaf's
rect. -/
theorem computeBoundingRect_spec_witness :
    (∀ r ∈ visLeafRects exList1, r.isEmpty = false) ∧
    ¬(computeBoundingRect exList1).isEmpty = true ∧
    (computeBoundingRect exList1).encloses exLeaf.rect :=
  ⟨by decide,
   fun hempty => by
     have hnil := ((computeBoundingRect_spec exList1 (by decide)).1).mp hempty
     exact absurd hnil (by decide),
   (computeBoundingRect_spec exList1 (by decide)).2.1 exLeaf.rect (by decide)⟩

end Psd2x
